import Mathlib

/-!
Shallow embedding of the toolset/registry filtering engine of the
github-mcp-server repository, covering `pkg/toolsets/toolsets.go` and the
toolset-list helpers of `pkg/github/tools.go`.

Go maps (`map[string]*Toolset`, `map[string]string`) are embedded as
association lists whose keys are unique in every concrete instance; Go's
value-returning side effects (registering a tool on the MCP server by
invoking its `RegisterFunc`) are embedded by returning the list of tools
that get registered, in registration order.  A Go `panic` is embedded as
`Option.none`, and a returned Go `error` as the `Except.error` branch.
-/

/-- A tool exposed by the MCP server: its name and the read-only hint carried
by `Tool.Annotations.ReadOnlyHint` in the source.  The `RegisterFunc`
callback is not data; registration is modelled by returning the registered
tools. -/
structure ServerTool where
  name : String
  readOnlyHint : Bool
deriving DecidableEq

/-- A resource template (`ServerResourceTemplate` in the source); only its
identity matters to the filtering engine, so it is embedded as a name. -/
structure ServerResourceTemplate where
  name : String
deriving DecidableEq

/-- A prompt (`ServerPrompt` in the source); only its identity matters to the
filtering engine. -/
structure ServerPrompt where
  name : String
deriving DecidableEq

/-- The `Toolset` struct of `pkg/toolsets/toolsets.go`: a named group of MCP
functionality with an enabled flag, a read-only flag, and separate write/read
tool lists, resource templates and prompts. -/
structure Toolset where
  name : String
  description : String
  enabled : Bool
  readOnly : Bool
  writeTools : List ServerTool
  readTools : List ServerTool
  resourceTemplates : List ServerResourceTemplate
  prompts : List ServerPrompt
deriving DecidableEq

/-- `NewToolset`: fresh toolset, disabled and not read-only, with empty
capability lists. -/
def Toolset.new (name description : String) : Toolset :=
  { name := name
    description := description
    enabled := false
    readOnly := false
    writeTools := []
    readTools := []
    resourceTemplates := []
    prompts := [] }

/-- `Toolset.GetActiveTools`: read tools followed by write tools when the
toolset is enabled and not read-only, only the read tools when enabled and
read-only, nothing when disabled. -/
def Toolset.getActiveTools (t : Toolset) : List ServerTool :=
  if t.enabled then
    if t.readOnly then t.readTools else t.readTools ++ t.writeTools
  else []

/-- `Toolset.GetAvailableTools`: read tools only when read-only, read tools
followed by write tools otherwise (ignores the enabled flag). -/
def Toolset.getAvailableTools (t : Toolset) : List ServerTool :=
  if t.readOnly then t.readTools else t.readTools ++ t.writeTools

/-- `Toolset.RegisterTools`: the tools whose `RegisterFunc` is invoked, in
order — nothing when disabled, all read tools and then, unless read-only, all
write tools. -/
def Toolset.registerTools (t : Toolset) : List ServerTool :=
  if !t.enabled then []
  else t.readTools ++ (if !t.readOnly then t.writeTools else [])

/-- `Toolset.GetActiveResourceTemplates`: nothing when disabled, all resource
templates otherwise. -/
def Toolset.getActiveResourceTemplates (t : Toolset) : List ServerResourceTemplate :=
  if !t.enabled then [] else t.resourceTemplates

/-- `Toolset.GetAvailableResourceTemplates`: always all resource templates. -/
def Toolset.getAvailableResourceTemplates (t : Toolset) : List ServerResourceTemplate :=
  t.resourceTemplates

/-- `Toolset.RegisterResourcesTemplates`: the resource templates registered on
the server — nothing when disabled, all of them otherwise. -/
def Toolset.registerResourcesTemplates (t : Toolset) : List ServerResourceTemplate :=
  if !t.enabled then [] else t.resourceTemplates

/-- `Toolset.RegisterPrompts`: the prompts registered on the server — nothing
when disabled, all of them otherwise. -/
def Toolset.registerPrompts (t : Toolset) : List ServerPrompt :=
  if !t.enabled then [] else t.prompts

/-- `Toolset.SetReadOnly`. -/
def Toolset.setReadOnly (t : Toolset) : Toolset :=
  { t with readOnly := true }

/-- `Toolset.AddWriteTools`: panics (`none`) when a submitted tool is
annotated read-only; otherwise appends to the write tools unless the toolset
is read-only, in which case the submission is silently ignored. -/
def Toolset.addWriteTools (t : Toolset) (tools : List ServerTool) : Option Toolset :=
  if tools.any (fun tool => tool.readOnlyHint) then none
  else if !t.readOnly then some { t with writeTools := t.writeTools ++ tools }
  else some t

/-- `Toolset.AddReadTools`: panics (`none`) when a submitted tool is not
annotated read-only; otherwise appends to the read tools. -/
def Toolset.addReadTools (t : Toolset) (tools : List ServerTool) : Option Toolset :=
  if tools.any (fun tool => !tool.readOnlyHint) then none
  else some { t with readTools := t.readTools ++ tools }

/-- Lookup in an association list embedding a Go `map[string]α`. -/
def lookupMap {α : Type} (m : List (String × α)) (k : String) : Option α :=
  (m.find? (fun p => p.1 == k)).map (fun p => p.2)

/-- Go map assignment `m[k] = v`: overwrite the entry when the key is
present, append it otherwise. -/
def mapInsert (m : List (String × String)) (k v : String) : List (String × String) :=
  if m.any (fun p => p.1 == k) then
    m.map (fun p => if p.1 == k then (k, v) else p)
  else m ++ [(k, v)]

/-- The `EnableToolsetsOptions` struct. -/
structure EnableToolsetsOptions where
  errorOnUnknown : Bool
deriving DecidableEq

/-- `ToolsetDoesNotExistError`. -/
structure ToolsetDoesNotExistError where
  name : String
deriving DecidableEq

/-- `ToolDoesNotExistError`. -/
structure ToolDoesNotExistError where
  name : String
deriving DecidableEq

/-- The `ToolsetGroup` struct: the toolset catalog (a Go map embedded as an
association list), the deprecated-alias table, the `everythingOn` sentinel
state and the global read-only flag. -/
structure ToolsetGroup where
  toolsets : List (String × Toolset)
  deprecatedAliases : List (String × String)
  everythingOn : Bool
  readOnly : Bool
deriving DecidableEq

/-- `NewToolsetGroup`. -/
def ToolsetGroup.new (readOnly : Bool) : ToolsetGroup :=
  { toolsets := []
    deprecatedAliases := []
    everythingOn := false
    readOnly := readOnly }

/-- `ToolsetGroup.IsEnabled`: true for every name when `everythingOn` is set,
otherwise the enabled flag of the named toolset (false when absent). -/
def ToolsetGroup.isEnabled (g : ToolsetGroup) (name : String) : Bool :=
  if g.everythingOn then true
  else
    match lookupMap g.toolsets name with
    | none => false
    | some t => t.enabled

/-- `ToolsetGroup.EnableToolset`: error when the named toolset is absent,
otherwise set its enabled flag. -/
def ToolsetGroup.enableToolset (g : ToolsetGroup) (name : String) :
    Except ToolsetDoesNotExistError ToolsetGroup :=
  match lookupMap g.toolsets name with
  | none => .error ⟨name⟩
  | some _ =>
      .ok { g with
              toolsets := g.toolsets.map
                (fun p => if p.1 == name then (p.1, { p.2 with enabled := true }) else p) }

/-- The first loop of `ToolsetGroup.EnableToolsets`: walk the names in order;
on `"all"` set `everythingOn` and break; otherwise enable the named toolset,
propagating an unknown-toolset error only when `errOnUnknown` is set. -/
def enableToolsetsLoop (g : ToolsetGroup) (names : List String) (errOnUnknown : Bool) :
    Except ToolsetDoesNotExistError ToolsetGroup :=
  match names with
  | [] => .ok g
  | n :: rest =>
      if n == "all" then .ok { g with everythingOn := true }
      else
        match g.enableToolset n with
        | .error e =>
            if errOnUnknown then .error e else enableToolsetsLoop g rest errOnUnknown
        | .ok g2 => enableToolsetsLoop g2 rest errOnUnknown

/-- The closing loop of `ToolsetGroup.EnableToolsets`: enabling every toolset
present in the catalog (`EnableToolset` on an existing key never fails). -/
def ToolsetGroup.enableAll (g : ToolsetGroup) : ToolsetGroup :=
  { g with toolsets := g.toolsets.map (fun p => (p.1, { p.2 with enabled := true })) }

/-- `ToolsetGroup.EnableToolsets`: a `nil` options argument defaults
`ErrorOnUnknown` to false; after the name loop, when `everythingOn` holds,
every toolset in the catalog is enabled. -/
def ToolsetGroup.enableToolsets (g : ToolsetGroup) (names : List String)
    (options : Option EnableToolsetsOptions) : Except ToolsetDoesNotExistError ToolsetGroup :=
  let opts := options.getD ⟨false⟩
  match enableToolsetsLoop g names opts.errorOnUnknown with
  | .error e => .error e
  | .ok g2 => if g2.everythingOn then .ok g2.enableAll else .ok g2

/-- The loop body of `ToolsetGroup.ResolveToolAliases`, with the `resolved`
and `aliasesUsed` accumulators explicit. -/
def resolveAliasesLoop (table : List (String × String)) (names : List String)
    (resolved : List String) (used : List (String × String)) :
    List String × List (String × String) :=
  match names with
  | [] => (resolved, used)
  | n :: rest =>
      match lookupMap table n with
      | some c => resolveAliasesLoop table rest (resolved ++ [c]) (mapInsert used n c)
      | none => resolveAliasesLoop table rest (resolved ++ [n]) used

/-- `ToolsetGroup.ResolveToolAliases`: resolve each name through the
deprecated-alias table, recording every substitution in `aliasesUsed` (the
stderr deprecation warning is not data). -/
def ToolsetGroup.resolveToolAliases (g : ToolsetGroup) (toolNames : List String) :
    List String × List (String × String) :=
  resolveAliasesLoop g.deprecatedAliases toolNames [] []

/-- The `find?` over one toolset's tool list used inside `FindToolByName`. -/
def findNamed (tools : List ServerTool) (n : String) : Option ServerTool :=
  tools.find? (fun t => t.name == n)

/-- The catalog scan of `ToolsetGroup.FindToolByName`: for each toolset check
the read tools, then the write tools. -/
def findToolInToolsets (entries : List (String × Toolset)) (toolName : String) :
    Option (ServerTool × String) :=
  match entries with
  | [] => none
  | (tsName, ts) :: rest =>
      match findNamed ts.readTools toolName with
      | some t => some (t, tsName)
      | none =>
          match findNamed ts.writeTools toolName with
          | some t => some (t, tsName)
          | none => findToolInToolsets rest toolName

/-- `ToolsetGroup.FindToolByName`: scan all toolsets, enabled or not, and
return the tool with its owning toolset's name, or `ToolDoesNotExistError`. -/
def ToolsetGroup.findToolByName (g : ToolsetGroup) (toolName : String) :
    Except ToolDoesNotExistError (ServerTool × String) :=
  match findToolInToolsets g.toolsets toolName with
  | some r => .ok r
  | none => .error ⟨toolName⟩

/-- The loop of `ToolsetGroup.RegisterSpecificTools`, accumulating the tools
actually registered: a missing name aborts with its error; a write tool is
skipped when the `readOnly` argument is set. -/
def registerSpecificToolsLoop (g : ToolsetGroup) (names : List String) (ro : Bool)
    (acc : List ServerTool) : Except ToolDoesNotExistError (List ServerTool) :=
  match names with
  | [] => .ok acc
  | n :: rest =>
      match g.findToolByName n with
      | .error e => .error e
      | .ok (tool, _) =>
          if !tool.readOnlyHint && ro then registerSpecificToolsLoop g rest ro acc
          else registerSpecificToolsLoop g rest ro (acc ++ [tool])

/-- `ToolsetGroup.RegisterSpecificTools`: returns the list of tools whose
`RegisterFunc` is invoked, or the error for the first name not found. -/
def ToolsetGroup.registerSpecificTools (g : ToolsetGroup) (toolNames : List String)
    (ro : Bool) : Except ToolDoesNotExistError (List ServerTool) :=
  registerSpecificToolsLoop g toolNames ro []

/-- `RemoveToolset` of `pkg/github/tools.go`: keep every entry different from
`toRemove`. -/
def removeToolset (tools : List String) (toRemove : String) : List String :=
  tools.filter (fun t => !(t == toRemove))

/-- The `seen` map of `AddDefaultToolset`, built by inserting every entry of
the original list; embedded as its key list. -/
def buildSeen (l : List String) : List String :=
  l.foldl (fun s ts => if s.any (fun k => k == ts) then s else s ++ [ts]) []

/-- `AddDefaultToolset` of `pkg/github/tools.go`.  The `defaults` parameter
stands for `r.DefaultToolsetIDs()` — registry code that is not under `src/`;
per the spec it returns the group IDs whose metadata marks them default.
When `"default"` (the ID of `ToolsetMetadataDefault`) is absent the list is
returned unchanged; otherwise the literal token is removed and every default
ID not already seen in the original list is appended. -/
def addDefaultToolset (defaults : List String) (result : List String) : List String :=
  let seen := buildSeen result
  let hasDefault := result.any (fun ts => ts == "default")
  if !hasDefault then result
  else
    let removed := removeToolset result "default"
    defaults.foldl (fun r id => if seen.any (fun k => k == id) then r else r ++ [id]) removed

/-- Sample toolset used to instantiate the read-only posture theorem. -/
def c1Tool : Toolset :=
  { name := "ts"
    description := "sample"
    enabled := true
    readOnly := true
    writeTools := [⟨"w", false⟩]
    readTools := [⟨"r", true⟩]
    resourceTemplates := [⟨"rt"⟩]
    prompts := [⟨"p"⟩] }

/-- Toolset group holding a two-hop alias table, to exhibit single-step
resolution. -/
def c8Group : ToolsetGroup :=
  { toolsets := []
    deprecatedAliases := [("get_issue", "issue_read"), ("issue_read", "zzz")]
    everythingOn := false
    readOnly := false }

/-- Group with one disabled toolset, for the `"all"` sentinel witness. -/
def c2Group : ToolsetGroup :=
  { toolsets := [("t1", Toolset.new "t1" "d")]
    deprecatedAliases := []
    everythingOn := false
    readOnly := false }

/-- The result of enabling `["all"]` on `c2Group`. -/
def c2GroupAll : ToolsetGroup :=
  { toolsets := [("t1", { Toolset.new "t1" "d" with enabled := true })]
    deprecatedAliases := []
    everythingOn := true
    readOnly := false }

/-- Group with one read tool, a deprecated alias for it, and one write tool,
with its toolset disabled. -/
def c9Group : ToolsetGroup :=
  { toolsets := [("ts1",
      { name := "ts1"
        description := "d"
        enabled := false
        readOnly := false
        writeTools := [⟨"issue_write", false⟩]
        readTools := [⟨"issue_read", true⟩]
        resourceTemplates := []
        prompts := [] })]
    deprecatedAliases := [("get_issue", "issue_read")]
    everythingOn := false
    readOnly := false }

/-- The per-name registration decision of `RegisterSpecificTools`: the tool
found for the name, unless it is a write tool skipped in read-only mode. -/
def regSelect (g : ToolsetGroup) (ro : Bool) (n : String) : Option ServerTool :=
  match g.findToolByName n with
  | .ok (x, _) => if !x.readOnlyHint && ro then none else some x
  | .error _ => none

/-- The group with every toolset's enabled flag forced to `b`; used to state
that lookups and the allow-list ignore group enablement. -/
def setAllEnabled (g : ToolsetGroup) (b : Bool) : ToolsetGroup :=
  { g with toolsets := g.toolsets.map (fun p => (p.1, { p.2 with enabled := b })) }

/-- Group with one read-only and one mutating tool, its toolset disabled, for
the allow-list witness. -/
def c4Group : ToolsetGroup :=
  { toolsets := [("ts1",
      { name := "ts1"
        description := "d"
        enabled := false
        readOnly := false
        writeTools := [⟨"w1", false⟩]
        readTools := [⟨"r1", true⟩]
        resourceTemplates := []
        prompts := [] })]
    deprecatedAliases := []
    everythingOn := false
    readOnly := false }

/-- C1: on a read-only toolset, `GetAvailableTools` and (when enabled)
`GetActiveTools` return exactly the read tools, `RegisterTools` registers
only the read tools (write tools only when the flag is unset), while active
resource templates and prompts are gated only by the enabled flag and are
unaffected by the read-only flag. -/
theorem c1_read_only_posture (t : Toolset) (h : t.readOnly = true) :
    t.getAvailableTools = t.readTools ∧
    (t.enabled = true → t.getActiveTools = t.readTools) ∧
    t.registerTools = (if t.enabled then t.readTools else []) ∧
    t.getActiveResourceTemplates = (if t.enabled then t.resourceTemplates else []) ∧
    (∀ b, ({ t with readOnly := b } : Toolset).getActiveResourceTemplates =
        t.getActiveResourceTemplates) ∧
    (∀ b, ({ t with readOnly := b } : Toolset).registerPrompts = t.registerPrompts) := by
  refine ⟨?_, fun he => ?_, ?_, ?_, fun b => ?_, fun b => ?_⟩ <;>
    cases henb : t.enabled <;>
      simp_all [Toolset.getAvailableTools, Toolset.getActiveTools, Toolset.registerTools,
        Toolset.getActiveResourceTemplates, Toolset.registerPrompts]

/-- Witness for C1 at a concrete read-only, enabled toolset. -/
theorem c1_read_only_posture_witness :
    c1Tool.getAvailableTools = c1Tool.readTools ∧
    c1Tool.getActiveTools = c1Tool.readTools ∧
    c1Tool.getActiveResourceTemplates = c1Tool.resourceTemplates :=
  ⟨(c1_read_only_posture c1Tool rfl).1,
   (c1_read_only_posture c1Tool rfl).2.1 rfl,
   ((c1_read_only_posture c1Tool rfl).2.2.2.1).trans (by decide)⟩

/-- C6: `AddWriteTools` panics exactly when a submitted tool carries the
read-only hint, `AddReadTools` panics exactly when a submitted tool lacks it,
and under the matching-registration precondition neither panics. -/
theorem c6_misdeclared_capability_fail_fast (t : Toolset) (tools : List ServerTool) :
    (t.addWriteTools tools = none ↔ ∃ x ∈ tools, x.readOnlyHint = true) ∧
    (t.addReadTools tools = none ↔ ∃ x ∈ tools, x.readOnlyHint = false) ∧
    ((∀ x ∈ tools, x.readOnlyHint = false) → (t.addWriteTools tools).isSome = true) ∧
    ((∀ x ∈ tools, x.readOnlyHint = true) → (t.addReadTools tools).isSome = true) := by
  have hw : t.addWriteTools tools = none ↔ ∃ x ∈ tools, x.readOnlyHint = true := by
    unfold Toolset.addWriteTools
    cases ha : tools.any (fun tool => tool.readOnlyHint) with
    | false =>
        simp only [ha, Bool.false_eq_true, if_false]
        constructor
        · intro hc
          exfalso
          revert hc
          split <;> simp
        · rintro ⟨x, hx, hhint⟩
          rw [List.any_eq_false] at ha
          exact absurd hhint (by simpa using ha x hx)
    | true =>
        simp only [ha, if_true]
        rw [List.any_eq_true] at ha
        simpa using ha
  have hr : t.addReadTools tools = none ↔ ∃ x ∈ tools, x.readOnlyHint = false := by
    unfold Toolset.addReadTools
    cases ha : tools.any (fun tool => !tool.readOnlyHint) with
    | false =>
        simp only [ha, Bool.false_eq_true, if_false]
        constructor
        · intro hc; simp at hc
        · rintro ⟨x, hx, hhint⟩
          rw [List.any_eq_false] at ha
          exact absurd (by simp [hhint] : (!x.readOnlyHint) = true) (ha x hx)
    | true =>
        simp only [ha, if_true]
        rw [List.any_eq_true] at ha
        obtain ⟨x, hx, hhint⟩ := ha
        simp only [true_iff]
        exact ⟨x, hx, by simpa using hhint⟩
  refine ⟨hw, hr, fun hall => ?_, fun hall => ?_⟩
  · rw [Option.isSome_iff_ne_none]
    intro hc
    obtain ⟨x, hx, hhint⟩ := hw.mp hc
    exact absurd hhint (by simp [hall x hx])
  · rw [Option.isSome_iff_ne_none]
    intro hc
    obtain ⟨x, hx, hhint⟩ := hr.mp hc
    exact absurd hhint (by simp [hall x hx])

/-- Witness for C6: a mutating tool submitted through `AddReadTools` panics,
a correctly annotated pair of submissions does not. -/
theorem c6_misdeclared_capability_fail_fast_witness :
    (Toolset.new "w" "d").addReadTools [⟨"mut", false⟩] = none ∧
    ((Toolset.new "w" "d").addWriteTools [⟨"mut", false⟩]).isSome = true :=
  ⟨(c6_misdeclared_capability_fail_fast (Toolset.new "w" "d") [⟨"mut", false⟩]).2.1.mpr
      ⟨⟨"mut", false⟩, by decide, rfl⟩,
   (c6_misdeclared_capability_fail_fast (Toolset.new "w" "d") [⟨"mut", false⟩]).2.2.1
      (by intro x hx; simp at hx; simp [hx])⟩

/-- C10: on a read-only toolset, `AddWriteTools` with correctly annotated
(non-read-only) tools is a silent no-op: no panic, state unchanged, and the
tool getters and registration are unaffected. -/
theorem c10_add_write_tools_read_only_noop (t : Toolset) (tools : List ServerTool)
    (h1 : t.readOnly = true) (h2 : ∀ x ∈ tools, x.readOnlyHint = false) :
    t.addWriteTools tools = some t ∧
    ((t.addWriteTools tools).getD t).getAvailableTools = t.getAvailableTools ∧
    ((t.addWriteTools tools).getD t).getActiveTools = t.getActiveTools ∧
    ((t.addWriteTools tools).getD t).registerTools = t.registerTools := by
  have ha : tools.any (fun tool => tool.readOnlyHint) = false := by
    rw [List.any_eq_false]
    intro x hx
    simp [h2 x hx]
  have hmain : t.addWriteTools tools = some t := by
    simp [Toolset.addWriteTools, ha, h1]
  exact ⟨hmain, by simp [hmain], by simp [hmain], by simp [hmain]⟩

/-- Witness for C10 at a concrete read-only toolset. -/
theorem c10_add_write_tools_read_only_noop_witness :
    c1Tool.addWriteTools [⟨"w2", false⟩] = some c1Tool :=
  (c10_add_write_tools_read_only_noop c1Tool [⟨"w2", false⟩] rfl
    (by intro x hx; simp at hx; simp [hx])).1

/-- The resolved-names accumulator of the alias loop: the initial accumulator
followed by the single-step image of the input. -/
theorem resolveAliasesLoop_fst (table : List (String × String)) :
    ∀ (names resolved : List String) (used : List (String × String)),
      (resolveAliasesLoop table names resolved used).1 =
        resolved ++ names.map (fun n => (lookupMap table n).getD n)
  | [], resolved, used => by simp [resolveAliasesLoop]
  | n :: rest, resolved, used => by
      cases h : lookupMap table n with
      | none => simp [resolveAliasesLoop, h, resolveAliasesLoop_fst table rest]
      | some c => simp [resolveAliasesLoop, h, resolveAliasesLoop_fst table rest]

/-- Go map assignment keeps the "values agree with the alias table"
invariant. -/
theorem mapInsert_inv (table used : List (String × String)) (k v : String)
    (hinv : ∀ p ∈ used, lookupMap table p.1 = some p.2)
    (hk : lookupMap table k = some v) :
    ∀ p ∈ mapInsert used k v, lookupMap table p.1 = some p.2 := by
  intro p hp
  unfold mapInsert at hp
  cases hc : used.any (fun q => q.1 == k) with
  | false =>
      rw [hc] at hp
      simp only [Bool.false_eq_true, if_false, List.mem_append, List.mem_singleton] at hp
      rcases hp with hp | hp
      · exact hinv p hp
      · subst hp; simpa using hk
  | true =>
      rw [hc] at hp
      simp only [if_true, List.mem_map] at hp
      obtain ⟨q, hq, hfq⟩ := hp
      by_cases hqk : q.1 == k
      · rw [if_pos hqk] at hfq
        subst hfq
        simpa using hk
      · rw [if_neg hqk] at hfq
        subst hfq
        exact hinv q hq

/-- Membership after a Go map assignment, under the table invariant: the new
map holds the old entries plus `(k, v)`. -/
theorem mapInsert_mem (table used : List (String × String)) (k v a c : String)
    (hinv : ∀ p ∈ used, lookupMap table p.1 = some p.2)
    (hk : lookupMap table k = some v) :
    ((a, c) ∈ mapInsert used k v ↔ (a, c) ∈ used ∨ (a = k ∧ c = v)) := by
  unfold mapInsert
  cases hc : used.any (fun q => q.1 == k) with
  | false =>
      simp only [Bool.false_eq_true, if_false, List.mem_append, List.mem_singleton,
        Prod.mk.injEq]
  | true =>
      simp only [if_true]
      have hid : ∀ q ∈ used, (if q.1 == k then (k, v) else q) = q := by
        intro q hq
        by_cases hqk : q.1 == k
        · have hkey : q.1 = k := by simpa using hqk
          have hval : some q.2 = some v := by
            rw [← hinv q hq, hkey, hk]
          rw [if_pos hqk]
          cases q with
          | mk q1 q2 =>
              simp only at hkey
              simp only [Option.some.injEq] at hval
              simp [hkey, ← hval]
        · rw [if_neg hqk]
      rw [List.map_congr_left hid]
      simp only [List.map_id']
      constructor
      · exact Or.inl
      · rintro (hm | ⟨rfl, rfl⟩)
        · exact hm
        · rw [List.any_eq_true] at hc
          obtain ⟨q, hq, hqk⟩ := hc
          have hkey : q.1 = a := by simpa using hqk
          have hval : some q.2 = some c := by
            rw [← hinv q hq, hkey, hk]
          simp only [Option.some.injEq] at hval
          have : q = (a, c) := by
            cases q with
            | mk q1 q2 => simp only at hkey hval; simp [hkey, hval]
          rwa [this] at hq

/-- The `aliasesUsed` accumulator of the alias loop: exactly the initial
entries plus one entry per alias occurring in the input. -/
theorem resolveAliasesLoop_snd (table : List (String × String)) :
    ∀ (names resolved : List String) (used : List (String × String)),
      (∀ p ∈ used, lookupMap table p.1 = some p.2) →
      ∀ a c, ((a, c) ∈ (resolveAliasesLoop table names resolved used).2 ↔
        (a, c) ∈ used ∨ (a ∈ names ∧ lookupMap table a = some c))
  | [], resolved, used, hinv, a, c => by simp [resolveAliasesLoop]
  | n :: rest, resolved, used, hinv, a, c => by
      cases h : lookupMap table n with
      | none =>
          rw [show resolveAliasesLoop table (n :: rest) resolved used =
              resolveAliasesLoop table rest (resolved ++ [n]) used by
            simp [resolveAliasesLoop, h]]
          rw [resolveAliasesLoop_snd table rest (resolved ++ [n]) used hinv a c]
          constructor
          · rintro (hm | ⟨hmem, hlk⟩)
            · exact Or.inl hm
            · exact Or.inr ⟨List.mem_cons_of_mem n hmem, hlk⟩
          · rintro (hm | ⟨hmem, hlk⟩)
            · exact Or.inl hm
            · rcases List.mem_cons.mp hmem with rfl | hmem
              · rw [h] at hlk; cases hlk
              · exact Or.inr ⟨hmem, hlk⟩
      | some v =>
          rw [show resolveAliasesLoop table (n :: rest) resolved used =
              resolveAliasesLoop table rest (resolved ++ [v]) (mapInsert used n v) by
            simp [resolveAliasesLoop, h]]
          rw [resolveAliasesLoop_snd table rest (resolved ++ [v]) (mapInsert used n v)
            (mapInsert_inv table used n v hinv h) a c]
          rw [mapInsert_mem table used n v a c hinv h]
          constructor
          · rintro ((hm | ⟨rfl, rfl⟩) | ⟨hmem, hlk⟩)
            · exact Or.inl hm
            · exact Or.inr ⟨List.mem_cons_self a rest, h⟩
            · exact Or.inr ⟨List.mem_cons_of_mem n hmem, hlk⟩
          · rintro (hm | ⟨hmem, hlk⟩)
            · exact Or.inl (Or.inl hm)
            · rcases List.mem_cons.mp hmem with rfl | hmem
              · rw [h] at hlk
                cases hlk
                exact Or.inl (Or.inr ⟨rfl, rfl⟩)
              · exact Or.inr ⟨hmem, hlk⟩

/-- The alias loop on a fully canonical input: names pass through, no alias
is recorded. -/
theorem resolveAliasesLoop_canonical (table : List (String × String)) :
    ∀ (names resolved : List String) (used : List (String × String)),
      (∀ n ∈ names, lookupMap table n = none) →
      resolveAliasesLoop table names resolved used = (resolved ++ names, used)
  | [], resolved, used, _ => by simp [resolveAliasesLoop]
  | n :: rest, resolved, used, hall => by
      have h : lookupMap table n = none := hall n (List.mem_cons_self n rest)
      rw [show resolveAliasesLoop table (n :: rest) resolved used =
          resolveAliasesLoop table rest (resolved ++ [n]) used by
        simp [resolveAliasesLoop, h]]
      rw [resolveAliasesLoop_canonical table rest (resolved ++ [n]) used
        (fun m hm => hall m (List.mem_cons_of_mem n hm))]
      simp

/-- The element at the junction of an appended list. -/
theorem getElem_append_cons_length {α : Type} :
    ∀ (l₁ : List α) (x : α) (l₂ : List α), (l₁ ++ x :: l₂)[l₁.length]? = some x
  | [], _, _ => by simp
  | y :: t, x, l₂ => by simpa using getElem_append_cons_length t x l₂

/-- C3: `ResolveToolAliases` is order-preserving single-step substitution —
the output has the input's length, its i-th element is the canonical target
when the input name is an alias and the input name otherwise, and the usage
map holds exactly the (alias, canonical) pairs for aliases present in the
input. -/
theorem c3_resolve_aliases_order_and_usage (g : ToolsetGroup) (toolNames : List String) :
    (g.resolveToolAliases toolNames).1 =
      toolNames.map (fun n => (lookupMap g.deprecatedAliases n).getD n) ∧
    (g.resolveToolAliases toolNames).1.length = toolNames.length ∧
    ∀ a c, ((a, c) ∈ (g.resolveToolAliases toolNames).2 ↔
      a ∈ toolNames ∧ lookupMap g.deprecatedAliases a = some c) := by
  have hfst : (g.resolveToolAliases toolNames).1 =
      toolNames.map (fun n => (lookupMap g.deprecatedAliases n).getD n) := by
    simpa [ToolsetGroup.resolveToolAliases] using
      resolveAliasesLoop_fst g.deprecatedAliases toolNames [] []
  refine ⟨hfst, by simp [hfst], fun a c => ?_⟩
  simpa [ToolsetGroup.resolveToolAliases] using
    resolveAliasesLoop_snd g.deprecatedAliases toolNames [] [] (by simp) a c

/-- C8: alias resolution is single-step — the substituted target is emitted
verbatim, never looked up again, even when it is itself an alias key — and
resolution on a fully canonical list is the identity with an empty usage
map. -/
theorem c8_alias_resolution_single_step (g : ToolsetGroup) (a b : String)
    (l₁ l₂ names : List String) (h : lookupMap g.deprecatedAliases a = some b) :
    ((g.resolveToolAliases (l₁ ++ a :: l₂)).1)[l₁.length]? = some b ∧
    ((∀ n ∈ names, lookupMap g.deprecatedAliases n = none) →
      g.resolveToolAliases names = (names, [])) := by
  constructor
  · have hfst : (g.resolveToolAliases (l₁ ++ a :: l₂)).1 =
        (l₁ ++ a :: l₂).map (fun n => (lookupMap g.deprecatedAliases n).getD n) := by
      simpa [ToolsetGroup.resolveToolAliases] using
        resolveAliasesLoop_fst g.deprecatedAliases (l₁ ++ a :: l₂) [] []
    rw [hfst, List.map_append, List.map_cons]
    have hlen : (l₁.map (fun n => (lookupMap g.deprecatedAliases n).getD n)).length =
        l₁.length := List.length_map _ _
    rw [← hlen, getElem_append_cons_length, h]
    rfl
  · intro hall
    have := resolveAliasesLoop_canonical g.deprecatedAliases names [] [] hall
    simpa [ToolsetGroup.resolveToolAliases] using this

/-- Witness for C8: with `get_issue → issue_read → zzz` in the table, the
resolved head is `issue_read` (the chain is not followed), and a canonical
list resolves to itself. -/
theorem c8_alias_resolution_single_step_witness :
    ((c8Group.resolveToolAliases ["get_issue"]).1)[0]? = some "issue_read" ∧
    c8Group.resolveToolAliases ["some_tool"] = (["some_tool"], []) :=
  ⟨(c8_alias_resolution_single_step c8Group "get_issue" "issue_read" [] [] ["some_tool"]
      (by decide)).1,
   (c8_alias_resolution_single_step c8Group "get_issue" "issue_read" [] [] ["some_tool"]
      (by decide)).2 (by decide)⟩

/-- Keys seen by the `seen`-map fold are exactly the keys of the initial map
plus the folded entries. -/
theorem seenFold_any (x : String) :
    ∀ (l init : List String),
      ((l.foldl (fun s ts => if s.any (fun k => k == ts) then s else s ++ [ts]) init).any
          (fun k => k == x)) =
        (init.any (fun k => k == x) || l.any (fun k => k == x))
  | [], init => by simp
  | t :: rest, init => by
      cases hc : init.any (fun k => k == t) with
      | true =>
          rw [List.foldl_cons, if_pos hc, seenFold_any x rest init]
          by_cases hx : t = x
          · subst hx
            simp [hc]
          · have hbx : (t == x) = false := by simp [hx]
            simp [hbx]
      | false =>
          rw [List.foldl_cons, if_neg (by simp [hc]), seenFold_any x rest (init ++ [t])]
          simp [List.any_append, Bool.or_assoc]

/-- The appending fold of `AddDefaultToolset` filters out the already seen
IDs and appends the rest in order. -/
theorem appendDefaults_eq (seen : List String) :
    ∀ (ds r : List String),
      ds.foldl (fun r id => if seen.any (fun k => k == id) then r else r ++ [id]) r =
        r ++ ds.filter (fun id => !(seen.any (fun k => k == id)))
  | [], r => by simp
  | d :: rest, r => by
      cases hc : seen.any (fun k => k == d) with
      | true =>
          rw [List.foldl_cons, if_pos hc, appendDefaults_eq seen rest r]
          simp [List.filter_cons, hc]
      | false =>
          rw [List.foldl_cons, if_neg (by simp [hc]), appendDefaults_eq seen rest (r ++ [d])]
          simp [List.filter_cons, hc]

/-- Boolean membership scan agrees with list membership. -/
theorem any_beq_iff_mem (m : List String) (x : String) :
    (m.any (fun k => k == x) = true) ↔ x ∈ m := by
  simp [List.any_eq_true]

/-- C7: `AddDefaultToolset` leaves a list without the `"default"` token
unchanged; otherwise it removes every occurrence of the token and appends
each default toolset ID not already present in the original list, never
duplicating a group on account of the expansion. -/
theorem c7_default_token_expansion (defaults l : List String) :
    ("default" ∉ l → addDefaultToolset defaults l = l) ∧
    ("default" ∈ l →
      addDefaultToolset defaults l =
        removeToolset l "default" ++
          defaults.filter (fun id => !(l.any (fun k => k == id)))) ∧
    ("default" ∈ l → l.Nodup → defaults.Nodup →
      (addDefaultToolset defaults l).Nodup) := by
  have key : "default" ∈ l →
      addDefaultToolset defaults l =
        removeToolset l "default" ++
          defaults.filter (fun id => !(l.any (fun k => k == id))) := by
    intro h
    have hhas : l.any (fun ts => ts == "default") = true := (any_beq_iff_mem l _).mpr h
    unfold addDefaultToolset
    rw [hhas]
    simp only [Bool.not_true, Bool.false_eq_true, if_false]
    rw [appendDefaults_eq (buildSeen l) defaults (removeToolset l "default")]
    have hpred : (fun id => !((buildSeen l).any (fun k => k == id))) =
        (fun id => !(l.any (fun k => k == id))) := by
      funext id
      unfold buildSeen
      rw [seenFold_any id l []]
      simp
    rw [hpred]
  refine ⟨fun h => ?_, key, fun h h1 h2 => ?_⟩
  · have hhas : l.any (fun ts => ts == "default") = false := by
      cases hc : l.any (fun ts => ts == "default") with
      | false => rfl
      | true => exact absurd ((any_beq_iff_mem l _).mp hc) h
    unfold addDefaultToolset
    rw [hhas]
    simp
  · rw [key h]
    apply List.Nodup.append
    · exact List.Nodup.filter _ h1
    · exact List.Nodup.filter _ h2
    · intro x hx1 hx2
      have hxl : x ∈ l := List.mem_of_mem_filter hx1
      have hx2' := List.of_mem_filter hx2
      simp only [Bool.not_eq_true'] at hx2'
      have : x ∉ l := by
        intro hc
        rw [(any_beq_iff_mem l x).mpr hc] at hx2'
        cases hx2'
      exact this hxl

/-- Witness for C7 at the spec's scenario: `["default","actions"]` with
defaults `["context","repos"]` expands to `["actions","context","repos"]`,
and a default-free list is unchanged. -/
theorem c7_default_token_expansion_witness :
    addDefaultToolset ["context", "repos"] ["default", "actions"] =
      ["actions", "context", "repos"] ∧
    addDefaultToolset ["context", "repos"] ["actions"] = ["actions"] :=
  ⟨((c7_default_token_expansion ["context", "repos"] ["default", "actions"]).2.1
      (by decide)).trans (by decide),
   (c7_default_token_expansion ["context", "repos"] ["actions"]).1 (by decide)⟩

/-- A key-preserving entry transform does not change which keys a map
lookup misses. -/
theorem lookupMap_isNone_map {α : Type} (l : List (String × α))
    (f : String × α → String × α) (hf : ∀ p, (f p).1 = p.1) (k : String) :
    (lookupMap (l.map f) k = none) ↔ (lookupMap l k = none) := by
  unfold lookupMap
  rw [List.find?_map]
  have hpred : ((fun p : String × α => p.1 == k) ∘ f) = (fun p : String × α => p.1 == k) := by
    funext q
    simp [Function.comp, hf q]
  rw [hpred]
  cases l.find? (fun p : String × α => p.1 == k) <;> simp

/-- `EnableToolset` success leaves the set of missing keys unchanged. -/
theorem enableToolset_lookup_none (g : ToolsetGroup) (m : String) (g2 : ToolsetGroup)
    (h : g.enableToolset m = .ok g2) (n : String) :
    (lookupMap g2.toolsets n = none) ↔ (lookupMap g.toolsets n = none) := by
  unfold ToolsetGroup.enableToolset at h
  cases hm : lookupMap g.toolsets m with
  | none => rw [hm] at h; cases h
  | some t =>
      rw [hm] at h
      injection h with h
      subst h
      exact lookupMap_isNone_map g.toolsets _
        (fun p => by by_cases hp : p.1 == m <;> simp [hp]) n

/-- With `ErrorOnUnknown` off, the name loop of `EnableToolsets` always
succeeds. -/
theorem enableToolsetsLoop_ok_of_noerr :
    ∀ (names : List String) (g : ToolsetGroup),
      ∃ g', enableToolsetsLoop g names false = .ok g'
  | [], g => ⟨g, rfl⟩
  | n :: rest, g => by
      cases h : (n == "all") with
      | true =>
          exact ⟨{ g with everythingOn := true }, by simp [enableToolsetsLoop, h]⟩
      | false =>
          cases he : g.enableToolset n with
          | error e =>
              obtain ⟨g', hg'⟩ := enableToolsetsLoop_ok_of_noerr rest g
              exact ⟨g', by simp [enableToolsetsLoop, h, he, hg']⟩
          | ok g2 =>
              obtain ⟨g', hg'⟩ := enableToolsetsLoop_ok_of_noerr rest g2
              exact ⟨g', by simp [enableToolsetsLoop, h, he, hg']⟩

/-- When `"all"` occurs among the names and the loop succeeds, the sentinel
has been set. -/
theorem enableToolsetsLoop_everythingOn :
    ∀ (names : List String) (g : ToolsetGroup) (e : Bool) (g' : ToolsetGroup),
      "all" ∈ names → enableToolsetsLoop g names e = .ok g' →
      g'.everythingOn = true
  | [], _, _, _, hall, _ => absurd hall (List.not_mem_nil _)
  | n :: rest, g, e, g', hall, hok => by
      cases h : (n == "all") with
      | true =>
          rw [show enableToolsetsLoop g (n :: rest) e =
              .ok { g with everythingOn := true } by simp [enableToolsetsLoop, h]] at hok
          injection hok with hok
          subst hok
          rfl
      | false =>
          have hne : n ≠ "all" := by simpa using h
          have hall' : "all" ∈ rest := by
            rcases List.mem_cons.mp hall with hc | hc
            · exact absurd hc.symm hne
            · exact hc
          cases he : g.enableToolset n with
          | error err =>
              rw [show enableToolsetsLoop g (n :: rest) e =
                  (if e then .error err else enableToolsetsLoop g rest e) by
                simp [enableToolsetsLoop, h, he]] at hok
              cases e with
              | true => simp at hok
              | false =>
                  simp only [Bool.false_eq_true, if_false] at hok
                  exact enableToolsetsLoop_everythingOn rest g false g' hall' hok
          | ok g2 =>
              rw [show enableToolsetsLoop g (n :: rest) e =
                  enableToolsetsLoop g2 rest e by simp [enableToolsetsLoop, h, he]] at hok
              exact enableToolsetsLoop_everythingOn rest g2 e g' hall' hok

/-- C2: when `EnableToolsets` is called with a names list containing the
`"all"` sentinel and succeeds, every subsequent `IsEnabled` query answers
true — for names absent from the group as well — and every toolset present
in the group has its enabled flag set. -/
theorem c2_all_sentinel_enables_everything (g g' : ToolsetGroup) (names : List String)
    (options : Option EnableToolsetsOptions)
    (hall : "all" ∈ names) (hok : g.enableToolsets names options = .ok g') :
    (∀ n, g'.isEnabled n = true) ∧ (∀ p ∈ g'.toolsets, p.2.enabled = true) := by
  cases hl : enableToolsetsLoop g names (options.getD ⟨false⟩).errorOnUnknown with
  | error e =>
      have herr : g.enableToolsets names options = .error e := by
        simp only [ToolsetGroup.enableToolsets]
        rw [hl]
      rw [herr] at hok
      cases hok
  | ok g2 =>
      have hev : g2.everythingOn = true :=
        enableToolsetsLoop_everythingOn names g _ g2 hall hl
      have heq : g.enableToolsets names options = .ok g2.enableAll := by
        simp only [ToolsetGroup.enableToolsets]
        rw [hl]
        simp [hev]
      rw [heq] at hok
      injection hok with hok
      subst hok
      constructor
      · intro n
        simp [ToolsetGroup.isEnabled, ToolsetGroup.enableAll, hev]
      · intro p hp
        simp only [ToolsetGroup.enableAll, List.mem_map] at hp
        obtain ⟨q, _, hq⟩ := hp
        rw [← hq]

/-- Witness for C2 at a concrete group: after enabling `["all"]`, both a
present and an absent name are reported enabled. -/
theorem c2_all_sentinel_enables_everything_witness :
    c2GroupAll.isEnabled "t1" = true ∧ c2GroupAll.isEnabled "not-present" = true :=
  ⟨(c2_all_sentinel_enables_everything c2Group c2GroupAll ["all"] none
      (by decide) rfl).1 "t1",
   (c2_all_sentinel_enables_everything c2Group c2GroupAll ["all"] none
      (by decide) rfl).1 "not-present"⟩

/-- The name loop with `ErrorOnUnknown` on fails exactly on the names before
the first `"all"` that miss the catalog. -/
theorem enableToolsetsLoop_error_iff :
    ∀ (names : List String) (g : ToolsetGroup),
      (∃ e, enableToolsetsLoop g names true = .error e) ↔
        ∃ n ∈ names.takeWhile (fun m => !(m == "all")),
          lookupMap g.toolsets n = none
  | [], g => by simp [enableToolsetsLoop]
  | n :: rest, g => by
      cases h : (n == "all") with
      | true =>
          have hn : n = "all" := by simpa using h
          subst hn
          simp [enableToolsetsLoop, List.takeWhile]
      | false =>
          have htw : (n :: rest).takeWhile (fun m => !(m == "all")) =
              n :: rest.takeWhile (fun m => !(m == "all")) := by
            simp [List.takeWhile, h]
          rw [htw]
          cases he : g.enableToolset n with
          | error err =>
              have hn : lookupMap g.toolsets n = none := by
                unfold ToolsetGroup.enableToolset at he
                cases hm : lookupMap g.toolsets n with
                | none => rfl
                | some t => rw [hm] at he; cases he
              rw [show enableToolsetsLoop g (n :: rest) true = .error err by
                simp [enableToolsetsLoop, h, he]]
              constructor
              · intro _
                exact ⟨n, List.mem_cons_self _ _, hn⟩
              · intro _
                exact ⟨err, rfl⟩
          | ok g2 =>
              have hn : lookupMap g.toolsets n ≠ none := by
                unfold ToolsetGroup.enableToolset at he
                cases hm : lookupMap g.toolsets n with
                | none => rw [hm] at he; cases he
                | some t => simp
              rw [show enableToolsetsLoop g (n :: rest) true =
                  enableToolsetsLoop g2 rest true by simp [enableToolsetsLoop, h, he]]
              rw [enableToolsetsLoop_error_iff rest g2]
              constructor
              · rintro ⟨m, hm, hlk⟩
                exact ⟨m, List.mem_cons_of_mem n hm,
                  (enableToolset_lookup_none g n g2 he m).mp hlk⟩
              · rintro ⟨m, hm, hlk⟩
                rcases List.mem_cons.mp hm with rfl | hm
                · exact absurd hlk hn
                · exact ⟨m, hm, (enableToolset_lookup_none g n g2 he m).mpr hlk⟩

/-- Counterexample to C5 as stated: with `ErrorOnUnknown` on, the requested
name `"missing"` (distinct from `"all"`) has no corresponding toolset, yet
`EnableToolsets` returns success because the loop breaks at `"all"` before
reaching it. -/
theorem c5_unknown_group_errors_counterexample :
    (ToolsetGroup.new false).enableToolsets ["all", "missing"] (some ⟨true⟩) =
      .ok { ToolsetGroup.new false with everythingOn := true } ∧
    lookupMap (ToolsetGroup.new false).toolsets "missing" = none ∧
    "missing" ∈ (["all", "missing"] : List String) ∧
    "missing" ≠ "all" :=
  ⟨rfl, rfl, by decide, by decide⟩

/-- C5 (amended): `EnableToolsets` succeeds whenever options are nil or
`ErrorOnUnknown` is false; with `ErrorOnUnknown` on it returns a
`ToolsetDoesNotExistError` exactly when a requested name occurring before
the first `"all"` has no corresponding toolset — names at or after the
first `"all"` are never checked, and the `"all"` expansion itself never
raises. -/
theorem c5_unknown_group_errors_amended (g : ToolsetGroup) (names : List String)
    (options : Option EnableToolsetsOptions) :
    ((options.getD ⟨false⟩).errorOnUnknown = false →
      ∃ g', g.enableToolsets names options = .ok g') ∧
    ((options.getD ⟨false⟩).errorOnUnknown = true →
      ((∃ e, g.enableToolsets names options = .error e) ↔
        ∃ n ∈ names.takeWhile (fun m => !(m == "all")),
          lookupMap g.toolsets n = none)) := by
  constructor
  · intro hopt
    simp only [ToolsetGroup.enableToolsets, hopt]
    obtain ⟨g2, hg2⟩ := enableToolsetsLoop_ok_of_noerr names g
    rw [hg2]
    cases hev : g2.everythingOn <;> simp [hev]
  · intro hopt
    simp only [ToolsetGroup.enableToolsets, hopt]
    rw [← enableToolsetsLoop_error_iff names g]
    cases hl : enableToolsetsLoop g names true with
    | error e => simp
    | ok g2 => cases hev : g2.everythingOn <;> simp [hev]

/-- Witness for C5 (amended): an unknown name is ignored by default and
errors under `ErrorOnUnknown`. -/
theorem c5_unknown_group_errors_amended_witness :
    (∃ g', (ToolsetGroup.new false).enableToolsets ["missing"] none = .ok g') ∧
    (∃ e, (ToolsetGroup.new false).enableToolsets ["missing"] (some ⟨true⟩) = .error e) :=
  ⟨(c5_unknown_group_errors_amended (ToolsetGroup.new false) ["missing"] none).1 rfl,
   ((c5_unknown_group_errors_amended (ToolsetGroup.new false) ["missing"] (some ⟨true⟩)).2
      rfl).mpr ⟨"missing", by decide, rfl⟩⟩

/-- When the catalog scan misses, no toolset holds a tool of that name. -/
theorem findToolInToolsets_none :
    ∀ (entries : List (String × Toolset)) (n : String),
      findToolInToolsets entries n = none →
      ∀ p ∈ entries, ∀ x ∈ p.2.readTools ++ p.2.writeTools, x.name ≠ n
  | [], _, _, _, hp => absurd hp (List.not_mem_nil _)
  | (tsName, ts) :: rest, n, h, p, hp => by
      unfold findToolInToolsets at h
      cases hr : findNamed ts.readTools n with
      | some t => rw [hr] at h; cases h
      | none =>
          rw [hr] at h
          cases hw : findNamed ts.writeTools n with
          | some t => rw [hw] at h; cases h
          | none =>
              rw [hw] at h
              unfold findNamed at hr hw
              rw [List.find?_eq_none] at hr hw
              rcases List.mem_cons.mp hp with rfl | hp
              · intro x hx
                rcases List.mem_append.mp hx with hx | hx
                · simpa using hr x hx
                · simpa using hw x hx
              · exact findToolInToolsets_none rest n h p hp

/-- When the catalog scan hits, the returned tool carries the requested name
and belongs to the returned toolset. -/
theorem findToolInToolsets_some :
    ∀ (entries : List (String × Toolset)) (n : String) (x : ServerTool) (ts : String),
      findToolInToolsets entries n = some (x, ts) →
      x.name = n ∧ ∃ T, (ts, T) ∈ entries ∧ x ∈ T.readTools ++ T.writeTools
  | [], _, _, _, h => by cases h
  | (tsName, tsv) :: rest, n, x, ts, h => by
      unfold findToolInToolsets at h
      cases hr : findNamed tsv.readTools n with
      | some t =>
          rw [hr] at h
          injection h with h
          obtain ⟨rfl, rfl⟩ := Prod.mk.injEq .. ▸ And.intro (congrArg Prod.fst h) (congrArg Prod.snd h)
          refine ⟨?_, tsv, List.mem_cons_self _ _, ?_⟩
          · have := List.find?_some hr
            simpa using this
          · exact List.mem_append.mpr (Or.inl (List.mem_of_find?_eq_some hr))
      | none =>
          rw [hr] at h
          cases hw : findNamed tsv.writeTools n with
          | some t =>
              rw [hw] at h
              injection h with h
              obtain ⟨rfl, rfl⟩ := Prod.mk.injEq .. ▸ And.intro (congrArg Prod.fst h) (congrArg Prod.snd h)
              refine ⟨?_, tsv, List.mem_cons_self _ _, ?_⟩
              · have := List.find?_some hw
                simpa using this
              · exact List.mem_append.mpr (Or.inr (List.mem_of_find?_eq_some hw))
          | none =>
              rw [hw] at h
              obtain ⟨h1, T, hT, hx⟩ := findToolInToolsets_some rest n x ts h
              exact ⟨h1, T, List.mem_cons_of_mem _ hT, hx⟩

/-- C9: `FindToolByName` ignores both filters and the alias table — it finds
any tool present among the read or write tools of any toolset, enabled or
not; it returns `ToolDoesNotExistError` exactly when no tool of that name
exists (so an alias of an existing tool is not found); and its result does
not depend on the deprecated-alias table. -/
theorem c9_find_tool_by_name_unfiltered (g : ToolsetGroup) (n : String) :
    ((∃ p ∈ g.toolsets, ∃ x ∈ p.2.readTools ++ p.2.writeTools, x.name = n) →
      ∃ x ts, g.findToolByName n = .ok (x, ts) ∧ x.name = n ∧
        ∃ T, (ts, T) ∈ g.toolsets ∧ x ∈ T.readTools ++ T.writeTools) ∧
    ((¬ ∃ p ∈ g.toolsets, ∃ x ∈ p.2.readTools ++ p.2.writeTools, x.name = n) →
      g.findToolByName n = .error ⟨n⟩) ∧
    (∀ al, ({ g with deprecatedAliases := al } : ToolsetGroup).findToolByName n =
      g.findToolByName n) := by
  refine ⟨?_, ?_, fun al => rfl⟩
  · intro hex
    cases hf : findToolInToolsets g.toolsets n with
    | none =>
        exfalso
        obtain ⟨p, hp, x, hx, hname⟩ := hex
        exact findToolInToolsets_none g.toolsets n hf p hp x hx hname
    | some r =>
        obtain ⟨x, ts⟩ := r
        obtain ⟨h1, T, hT, hx⟩ := findToolInToolsets_some g.toolsets n x ts hf
        exact ⟨x, ts, by simp [ToolsetGroup.findToolByName, hf], h1, T, hT, hx⟩
  · intro hne
    cases hf : findToolInToolsets g.toolsets n with
    | none => simp [ToolsetGroup.findToolByName, hf]
    | some r =>
        exfalso
        obtain ⟨x, ts⟩ := r
        obtain ⟨h1, T, hT, hx⟩ := findToolInToolsets_some g.toolsets n x ts hf
        exact hne ⟨(ts, T), hT, x, hx, h1⟩

/-- Witness for C9: looking up an alias of an existing tool yields the
not-found error because the alias table is never consulted. -/
theorem c9_find_tool_by_name_unfiltered_witness :
    c9Group.findToolByName "get_issue" = .error ⟨"get_issue"⟩ :=
  (c9_find_tool_by_name_unfiltered c9Group "get_issue").2.1 (by decide)

/-- When every requested name is found, the registration loop succeeds and
registers exactly the non-skipped tools, in order. -/
theorem registerSpecificToolsLoop_ok (g : ToolsetGroup) (ro : Bool) :
    ∀ (names : List String) (acc : List ServerTool),
      (∀ n ∈ names, ∃ r, g.findToolByName n = .ok r) →
      registerSpecificToolsLoop g names ro acc =
        .ok (acc ++ names.filterMap (regSelect g ro))
  | [], acc, _ => by simp [registerSpecificToolsLoop]
  | n :: rest, acc, hfound => by
      obtain ⟨r, hr⟩ := hfound n (List.mem_cons_self n rest)
      obtain ⟨x, ts⟩ := r
      have hrest : ∀ m ∈ rest, ∃ r, g.findToolByName m = .ok r :=
        fun m hm => hfound m (List.mem_cons_of_mem n hm)
      cases hskip : (!x.readOnlyHint && ro) with
      | true =>
          rw [show registerSpecificToolsLoop g (n :: rest) ro acc =
              registerSpecificToolsLoop g rest ro acc by
            simp [registerSpecificToolsLoop, hr, hskip]]
          rw [registerSpecificToolsLoop_ok g ro rest acc hrest]
          simp [List.filterMap_cons, regSelect, hr, hskip]
      | false =>
          rw [show registerSpecificToolsLoop g (n :: rest) ro acc =
              registerSpecificToolsLoop g rest ro (acc ++ [x]) by
            simp [registerSpecificToolsLoop, hr, hskip]]
          rw [registerSpecificToolsLoop_ok g ro rest (acc ++ [x]) hrest]
          simp [List.filterMap_cons, regSelect, hr, hskip]

/-- Setting every toolset's enabled flag does not change the catalog scan. -/
theorem findToolInToolsets_enabled_invariant (b : Bool) :
    ∀ (entries : List (String × Toolset)) (n : String),
      findToolInToolsets
          (entries.map (fun p => (p.1, { p.2 with enabled := b }))) n =
        findToolInToolsets entries n
  | [], _ => rfl
  | (tsName, ts) :: rest, n => by
      cases hr : findNamed ts.readTools n with
      | some t => simp [findToolInToolsets, hr]
      | none =>
          cases hw : findNamed ts.writeTools n with
          | some t => simp [findToolInToolsets, hr, hw]
          | none =>
              simp [findToolInToolsets, hr, hw,
                findToolInToolsets_enabled_invariant b rest n]

/-- Setting every toolset's enabled flag does not change `FindToolByName`. -/
theorem findToolByName_enabled_invariant (g : ToolsetGroup) (b : Bool) (n : String) :
    (setAllEnabled g b).findToolByName n = g.findToolByName n := by
  unfold ToolsetGroup.findToolByName setAllEnabled
  rw [findToolInToolsets_enabled_invariant b g.toolsets n]

/-- Setting every toolset's enabled flag does not change the registration
loop. -/
theorem registerSpecificToolsLoop_enabled_invariant (g : ToolsetGroup) (b : Bool)
    (ro : Bool) :
    ∀ (names : List String) (acc : List ServerTool),
      registerSpecificToolsLoop (setAllEnabled g b) names ro acc =
        registerSpecificToolsLoop g names ro acc
  | [], acc => rfl
  | n :: rest, acc => by
      unfold registerSpecificToolsLoop
      rw [findToolByName_enabled_invariant g b n]
      cases hf : g.findToolByName n with
      | error e => rfl
      | ok r =>
          obtain ⟨x, ts⟩ := r
          cases hskip : (!x.readOnlyHint && ro) with
          | true =>
              simp only [hskip, if_true]
              exact registerSpecificToolsLoop_enabled_invariant g b ro rest acc
          | false =>
              simp only [hskip, Bool.false_eq_true, if_false]
              exact registerSpecificToolsLoop_enabled_invariant g b ro rest (acc ++ [x])

/-- C4: when every requested name exists, `RegisterSpecificTools` registers
exactly the found tools minus the write tools skipped in read-only mode; in
read-only mode every registered tool is annotated read-only; and the result
is independent of the enabled flags of the owning toolsets (the allow-list
bypasses group filtering but not read-only filtering). -/
theorem c4_specific_tools_bypass_groups_not_read_only (g : ToolsetGroup)
    (toolNames : List String) (ro : Bool)
    (hfound : ∀ n ∈ toolNames, ∃ r, g.findToolByName n = .ok r) :
    g.registerSpecificTools toolNames ro =
      .ok (toolNames.filterMap (regSelect g ro)) ∧
    (ro = true → ∀ x ∈ toolNames.filterMap (regSelect g ro), x.readOnlyHint = true) ∧
    (∀ b, (setAllEnabled g b).registerSpecificTools toolNames ro =
      g.registerSpecificTools toolNames ro) := by
  refine ⟨?_, ?_, ?_⟩
  · unfold ToolsetGroup.registerSpecificTools
    simpa using registerSpecificToolsLoop_ok g ro toolNames [] hfound
  · rintro rfl x hx
    rw [List.mem_filterMap] at hx
    obtain ⟨m, _, hm⟩ := hx
    unfold regSelect at hm
    cases hf : g.findToolByName m with
    | error e => rw [hf] at hm; cases hm
    | ok r =>
        obtain ⟨y, ts⟩ := r
        rw [hf] at hm
        cases hhint : y.readOnlyHint with
        | false => simp [hhint] at hm
        | true =>
            simp only [hhint, Bool.not_true, Bool.false_and, Bool.false_eq_true,
              if_false, Option.some.injEq] at hm
            rw [← hm]
            exact hhint
  · intro b
    unfold ToolsetGroup.registerSpecificTools
    exact registerSpecificToolsLoop_enabled_invariant g b ro toolNames []

/-- Witness for C4 at the spec's scenario: one read-only and one mutating
tool requested with the read-only argument on, owning toolset disabled —
only the read-only tool is registered. -/
theorem c4_specific_tools_bypass_groups_not_read_only_witness :
    c4Group.registerSpecificTools ["r1", "w1"] true = .ok [⟨"r1", true⟩] :=
  ((c4_specific_tools_bypass_groups_not_read_only c4Group ["r1", "w1"] true
      (by
        intro n hn
        simp only [List.mem_cons, List.not_mem_nil, or_false] at hn
        rcases hn with rfl | rfl
        · exact ⟨_, rfl⟩
        · exact ⟨_, rfl⟩)).1).trans rfl
